import Mathlib

/-!
Verification of the polluted-cities backend against its design document.

The JavaScript source is embedded shallowly: JS numbers are modelled as
finite rationals plus the special values NaN / Infinity / -Infinity,
JS strings as Lean strings (lengths counted in characters), absent object
properties as `Option.none`, a thrown exception as `Except.error`, and the
in-memory `Map` / node-cache / SQLite stores as association lists threaded
explicitly through the functions that mutate them.
-/

/-- A JavaScript number: a finite value (modelled as a rational) or one of
the special values `NaN`, `Infinity`, `-Infinity`. -/
inductive JsNum where
| fin (q : ℚ)
| nan
| posInf
| negInf
deriving DecidableEq

/-- The JS values that flow through the validation pipeline: numbers,
strings and `null`.  An absent / `undefined` property is `Option.none`
at the use site. -/
inductive JsVal where
| num (n : JsNum)
| str (s : String)
| vNull
deriving DecidableEq

/-- JS truthiness of a value: `0`, `NaN`, `""` and `null` are falsy. -/
def JsVal.truthy : JsVal → Bool
| .num (.fin q) => q != 0
| .num .nan => false
| .num .posInf => true
| .num .negInf => true
| .str s => s != ""
| .vNull => false

/-- A possibly-undefined JS value (an object property read). -/
abbrev JsField := Option JsVal

/-- Truthiness of a possibly-undefined value (`undefined` is falsy). -/
def jsFieldTruthy : JsField → Bool
| some v => v.truthy
| none => false

/-- The JS `a || b` operator on possibly-undefined values: the first
operand when it is truthy, otherwise the second operand. -/
def jsOr (a b : JsField) : JsField :=
  if jsFieldTruthy a then a else b

/-- `a || dflt` with a guaranteed-defined default, as in
`cityData.aqi || cityData.pollution || cityData.airQualityIndex || 0`. -/
def jsOrDefault (a : JsField) (dflt : JsVal) : JsVal :=
  match a with
  | some v => if v.truthy then v else dflt
  | none => dflt

/-- The JS `<` comparison on numbers; every comparison involving `NaN`
is false. -/
def JsNum.lt : JsNum → JsNum → Bool
| .nan, _ => false
| _, .nan => false
| .fin a, .fin b => a < b
| .fin _, .posInf => true
| .fin _, .negInf => false
| .posInf, _ => false
| .negInf, .negInf => false
| .negInf, .fin _ => true
| .negInf, .posInf => true

/-- The JS `isFinite` test. -/
def JsNum.isFinite : JsNum → Bool
| .fin _ => true
| _ => false

/-- The character class of the JS `\s` regex escape and of `trim`
(ASCII whitespace plus no-break space, line/paragraph separators, BOM). -/
def isJsWs (ch : Char) : Bool :=
  ch = ' ' || ch = '\t' || ch = '\n' || ch = '\r' ||
  ch = '\x0b' || ch = '\x0c' || ch = ' ' ||
  ch = ' ' || ch = ' ' || ch = '﻿'

/-- `replace(/\s+/g, ' ')` on a character list: each maximal run of
whitespace becomes a single space.  The flag records whether the previous
character was whitespace. -/
def collapseWsAux : Bool → List Char → List Char
| _, [] => []
| prevWs, ch :: rest =>
  if isJsWs ch then
    if prevWs then collapseWsAux true rest
    else ' ' :: collapseWsAux true rest
  else ch :: collapseWsAux false rest

/-- `replace(/\s+/g, ' ')` on a character list. -/
def collapseWs (l : List Char) : List Char := collapseWsAux false l

/-- JS `String.prototype.trim`: drop whitespace from both ends. -/
def jsTrimList (l : List Char) : List Char :=
  ((l.dropWhile isJsWs).reverse.dropWhile isJsWs).reverse

/-- JS `String.prototype.trim` on strings. -/
def jsTrim (s : String) : String := ⟨jsTrimList s.data⟩

/-- `replace(/\s+/g, ' ')` on strings. -/
def collapseWsStr (s : String) : String := ⟨collapseWs s.data⟩

/-! ## Record Validator (`CityValidator`, `src/utils/validation.js`,
Google-Places-disabled revision)

A raw upstream city record as seen by the validator: every accepted field
alias is a possibly-undefined JS value. -/

structure RawCity where
  city : JsField
  name : JsField
  cityName : JsField
  country : JsField
  aqi : JsField
  pollution : JsField
  airQualityIndex : JsField
deriving DecidableEq

namespace Validator

/-- `config.cityValidation.minNameLength`. -/
def minNameLength : Nat := 2

/-- `config.cityValidation.maxNameLength`. -/
def maxNameLength : Nat := 100

/-- `config.cityValidation.allowedCountries`. -/
def allowedCountries : List String := ["PL", "DE", "ES", "FR"]

/-- A field carried by the record for `hasRequiredFields`: the property
exists and is neither `null` nor `undefined`. -/
def fieldPresent : JsField → Bool
| none => false
| some .vNull => false
| some _ => true

/-- `hasRequiredFields`: some name alias, the country, and some pollution
alias are present. -/
def hasRequiredFields (cityData : RawCity) : Bool :=
  (fieldPresent cityData.city || fieldPresent cityData.name ||
    fieldPresent cityData.cityName) &&
  fieldPresent cityData.country &&
  (fieldPresent cityData.aqi || fieldPresent cityData.pollution ||
    fieldPresent cityData.airQualityIndex)

/-- Result shape of `isValidCityName`. -/
structure NameValidation where
  isValid : Bool
  correctedName : Option String
deriving DecidableEq

/-- `isValidCityName` in the revision where the Google Places API is
disabled: require a string, trim it, check the configured length bounds,
and otherwise accept the trimmed name as the corrected name. -/
def isValidCityName (cityName : JsVal) : NameValidation :=
  match cityName with
  | .str s =>
    let trimmedName := jsTrim s
    if trimmedName.length < minNameLength || maxNameLength < trimmedName.length then
      { isValid := false, correctedName := none }
    else
      { isValid := true, correctedName := some trimmedName }
  | _ => { isValid := false, correctedName := none }

/-- `isValidCountry`: a string whose trimmed form is in the allowed set. -/
def isValidCountry (countryName : JsField) : Bool :=
  match countryName with
  | some (.str s) => allowedCountries.contains (jsTrim s)
  | _ => false

/-- The argument object `{ aqi: pollutionValue }` is a record with only the
three pollution aliases; `isValidPollutionData` is called both on raw
records and on such wrappers. -/
structure PollutionData where
  aqi : JsField
  pollution : JsField
  airQualityIndex : JsField
deriving DecidableEq

/-- `isValidPollutionData`: coalesce the aliases with `||`, require a
number, require `0 ≤ aqi ≤ 1000`, require finiteness.  Note that the `||`
chain turns a present value `0` into the last (undefined) alias. -/
def isValidPollutionData (cityData : PollutionData) : Bool :=
  let aqi := jsOr (jsOr cityData.aqi cityData.pollution) cityData.airQualityIndex
  match aqi with
  | some (.num n) =>
    if n.lt (.fin 0) || (JsNum.fin 1000).lt n then false
    else if !n.isFinite then false
    else true
  | _ => false

/-- Outcome of `isValidCity`: the source returns `false` for a rejected
record and `{ isValid: true, correctedName }` for an accepted one (the
catch-all error branch also rejects). -/
inductive CityValidation where
| rejected
| accepted (correctedName : JsVal)
deriving DecidableEq

/-- `isValidCity`: required fields, name validation (with alias
coalescing and the `'Unknown City'` default), country check, then the
pollution check on the wrapper `{ aqi: pollutionValue }` where
`pollutionValue = aqi || pollution || airQualityIndex || 0`. -/
def isValidCity (cityData : RawCity) : CityValidation :=
  if !hasRequiredFields cityData then .rejected
  else
    let rawCityName := jsOrDefault
      (jsOr (jsOr cityData.city cityData.name) cityData.cityName)
      (.str "Unknown City")
    let pollutionValue := jsOrDefault
      (jsOr (jsOr cityData.aqi cityData.pollution) cityData.airQualityIndex)
      (.num (.fin 0))
    let validationResult := isValidCityName rawCityName
    if !validationResult.isValid then .rejected
    else
      let correctedCityName :=
        match validationResult.correctedName with
        | some s => if s != "" then JsVal.str s else rawCityName
        | none => rawCityName
      if !isValidCountry cityData.country then .rejected
      else if !isValidPollutionData
          { aqi := some pollutionValue, pollution := none, airQualityIndex := none } then
        .rejected
      else .accepted correctedCityName

end Validator

/-- A record carrying pollution value exactly `0`, with a valid name and a
valid country: the input on which the validator contradicts the spec. -/
def zeroPollutionCity : RawCity :=
  { city := some (.str "Warsaw")
    name := none
    cityName := none
    country := some (.str "PL")
    aqi := some (.num (.fin 0))
    pollution := none
    airQualityIndex := none }

/-- C3: the spec says a record whose pollution value is exactly 0 is
accepted (domain 0–1000 inclusive), and that acceptance is equivalent to
the pollution value being a finite number in [0, 1000].  The code rejects
pollution 0: `aqi || pollution || airQualityIndex` coalesces the falsy
value `0` to `undefined`, which then fails the `typeof` number check, even
though the record passes the required-fields, name and country checks and
the explicit range check `aqi < 0 || aqi > 1000` would accept 0. -/
theorem c3_zero_pollution_rejected :
    Validator.hasRequiredFields zeroPollutionCity = true ∧
    (Validator.isValidCityName (.str "Warsaw")).isValid = true ∧
    Validator.isValidCountry zeroPollutionCity.country = true ∧
    Validator.isValidPollutionData
      { aqi := some (.num (.fin 0)), pollution := none, airQualityIndex := none } = false ∧
    Validator.isValidCity zeroPollutionCity = .rejected := by
  refine ⟨rfl, rfl, rfl, rfl, rfl⟩

/-! ## Deduplicator (`removeDuplicateCities`,
`src/controllers/citiesController.js`)

A record at the deduplication stage.  By this point of the pipeline the
name aliases hold strings (or are absent) and the pollution aliases hold
finite numbers (or are absent); `correctedName` was attached by the
validator. -/

namespace Dedup

structure DCity where
  correctedName : Option String
  city : Option String
  name : Option String
  cityName : Option String
  country : Option String
  aqi : Option ℚ
  pollution : Option ℚ
  airQualityIndex : Option ℚ
deriving DecidableEq

/-- Truthiness of an optional string (`""` and `undefined` are falsy). -/
def optStrTruthy : Option String → Bool
| some s => s != ""
| none => false

/-- Truthiness of an optional number (`0` and `undefined` are falsy). -/
def optNumTruthy : Option ℚ → Bool
| some q => q != 0
| none => false

/-- `city.correctedName || city.city || city.name || city.cityName`:
the first truthy name alias; `none` when the whole chain is falsy
(the record is then skipped by the `if (!cityName) continue` guard). -/
def DCity.nameOf (c : DCity) : Option String :=
  if optStrTruthy c.correctedName then c.correctedName
  else if optStrTruthy c.city then c.city
  else if optStrTruthy c.name then c.name
  else if optStrTruthy c.cityName then c.cityName
  else none

/-- `city.aqi || city.pollution || city.airQualityIndex || 0`. -/
def DCity.pollutionOf (c : DCity) : ℚ :=
  if optNumTruthy c.aqi then c.aqi.getD 0
  else if optNumTruthy c.pollution then c.pollution.getD 0
  else if optNumTruthy c.airQualityIndex then c.airQualityIndex.getD 0
  else 0

/-- Template-literal stringification of the country property
(`undefined` interpolates as the text "undefined"). -/
def jsTemplateStr : Option String → String
| some s => s
| none => "undefined"

/-- The dedupe key of a record:
`cityName.toLowerCase() + "_" + city.country`, or `none` for a record
the loop skips. -/
def DCity.keyOf? (c : DCity) : Option String :=
  c.nameOf.map (fun n => n.toLower ++ "_" ++ jsTemplateStr c.country)

/-- Lookup in the insertion-ordered `Map` model (an association list). -/
def mapLookup : List (String × DCity) → String → Option DCity
| [], _ => none
| e :: rest, k => if e.1 = k then some e.2 else mapLookup rest k

/-- JS `Map.prototype.set`: update the existing entry in place, otherwise
append a new entry at the end. -/
def mapSet : List (String × DCity) → String → DCity → List (String × DCity)
| [], k, v => [(k, v)]
| e :: rest, k, v => if e.1 = k then (e.1, v) :: rest else e :: mapSet rest k v

/-- One iteration of the `for (const city of cities)` loop. -/
def dedupeStep (cityMap : List (String × DCity)) (city : DCity) :
    List (String × DCity) :=
  match city.nameOf with
  | none => cityMap
  | some cityName =>
    let uniqueKey := cityName.toLower ++ "_" ++ jsTemplateStr city.country
    match mapLookup cityMap uniqueKey with
    | some existingCity =>
      if city.pollutionOf > existingCity.pollutionOf then
        mapSet cityMap uniqueKey city
      else cityMap
    | none => mapSet cityMap uniqueKey city

/-- `removeDuplicateCities`: fold the loop over the input and return
`Array.from(cityMap.values())` (the values in key-insertion order). -/
def removeDuplicateCities (cities : List DCity) : List DCity :=
  (cities.foldl dedupeStep []).map Prod.snd

/-- Reference duplicate-resolution policy, stated per key following the
spec: scanning the group left to right, a strictly more polluted record
replaces the held one and ties keep the held (first-seen) record. -/
def pickHigher (a b : DCity) : DCity :=
  if b.pollutionOf > a.pollutionOf then b else a

/-- The first record attaining the maximal pollution value of a group. -/
def firstMaxPollution : List DCity → Option DCity
| [] => none
| c :: rest => some (rest.foldl pickHigher c)

/-- `firstMaxPollution` restated as a fold over an optional accumulator;
this is the shape in which the `Map`-based loop reveals itself. -/
def stepPick (acc : Option DCity) (c : DCity) : Option DCity :=
  match acc with
  | none => some c
  | some e => some (pickHigher e c)

/-- The per-key group of an input list. -/
def grp (k : String) (cities : List DCity) : List DCity :=
  cities.filter (fun c => decide (c.keyOf? = some k))

end Dedup

namespace Dedup

theorem mapLookup_mapSet (m : List (String × DCity)) (k : String) (v : DCity)
    (k' : String) :
    mapLookup (mapSet m k v) k' = if k' = k then some v else mapLookup m k' := by
  induction m with
  | nil =>
    by_cases h : k' = k
    · simp [mapSet, mapLookup, h]
    · simp [mapSet, mapLookup, h, Ne.symm h]
  | cons e rest ih =>
    by_cases he : e.1 = k
    · by_cases h : k' = k
      · simp [mapSet, he, mapLookup, h, he.trans h.symm]
      · have hkk : ¬ k = k' := fun hc => h hc.symm
        simp [mapSet, he, mapLookup, h, hkk]
    · by_cases hek : e.1 = k'
      · have h : ¬ k' = k := fun hc => he (hek.trans hc)
        simp [mapSet, he, mapLookup, hek, h]
      · simp [mapSet, he, mapLookup, hek, ih]

theorem mapSet_keys_of_some (m : List (String × DCity)) (k : String) (v d : DCity)
    (h : mapLookup m k = some d) :
    (mapSet m k v).map Prod.fst = m.map Prod.fst := by
  induction m with
  | nil => simp [mapLookup] at h
  | cons e rest ih =>
    by_cases he : e.1 = k
    · simp [mapSet, he]
    · simp [mapLookup, he] at h
      simp [mapSet, he, ih h]

theorem mapSet_keys_of_none (m : List (String × DCity)) (k : String) (v : DCity)
    (h : mapLookup m k = none) :
    (mapSet m k v).map Prod.fst = m.map Prod.fst ++ [k] := by
  induction m with
  | nil => simp [mapSet]
  | cons e rest ih =>
    by_cases he : e.1 = k
    · simp [mapLookup, he] at h
    · simp [mapLookup, he] at h
      simp [mapSet, he, ih h]

theorem mapLookup_none_of_not_mem_keys (m : List (String × DCity)) (k : String)
    (h : mapLookup m k = none) : k ∉ m.map Prod.fst := by
  induction m with
  | nil => simp
  | cons e rest ih =>
    by_cases he : e.1 = k
    · simp [mapLookup, he] at h
    · simp [mapLookup, he] at h
      simp [ih h]
      exact fun hc => he (hc ▸ rfl)

theorem nodup_append_singleton {α : Type} (l : List α) (a : α)
    (ha : a ∉ l) (hl : l.Nodup) : (l ++ [a]).Nodup := by
  induction l with
  | nil => simp
  | cons b rest ih =>
    rw [List.cons_append, List.nodup_cons]
    rw [List.nodup_cons] at hl
    refine ⟨?_, ih (fun hc => ha (List.mem_cons_of_mem _ hc)) hl.2⟩
    intro hmem
    rcases List.mem_append.mp hmem with h1 | h2
    · exact hl.1 h1
    · rw [List.mem_singleton] at h2
      exact ha (h2 ▸ List.mem_cons_self _ _)

theorem mem_of_mapSet (m : List (String × DCity)) (k : String) (v : DCity)
    (e : String × DCity) (h : e ∈ mapSet m k v) : e ∈ m ∨ e = (k, v) := by
  induction m with
  | nil => simp [mapSet] at h; right; simp [h]
  | cons f rest ih =>
    by_cases hf : f.1 = k
    · simp [mapSet, hf] at h
      rcases h with h | h
      · right; rw [h, ← hf]
      · left; exact List.mem_cons_of_mem _ h
    · simp [mapSet, hf] at h
      rcases h with h | h
      · left; rw [h]; exact List.mem_cons_self _ _
      · rcases ih h with h2 | h2
        · left; exact List.mem_cons_of_mem _ h2
        · right; exact h2

theorem mem_of_mapLookup (m : List (String × DCity)) (k : String) (d : DCity)
    (h : mapLookup m k = some d) : (k, d) ∈ m := by
  induction m with
  | nil => simp [mapLookup] at h
  | cons e rest ih =>
    by_cases he : e.1 = k
    · simp [mapLookup, he] at h
      have : e = (k, d) := by
        cases e
        simp_all
      rw [← this]
      exact List.mem_cons_self _ _
    · simp [mapLookup, he] at h
      exact List.mem_cons_of_mem _ (ih h)

theorem mapLookup_of_mem_nodup (m : List (String × DCity)) (k : String) (d : DCity)
    (hmem : (k, d) ∈ m) (hnd : (m.map Prod.fst).Nodup) :
    mapLookup m k = some d := by
  induction m with
  | nil => simp at hmem
  | cons e rest ih =>
    rw [List.map_cons, List.nodup_cons] at hnd
    rcases List.mem_cons.mp hmem with h | h
    · rw [← h]
      simp [mapLookup]
    · have hk : k ∈ rest.map Prod.fst := List.mem_map.mpr ⟨(k, d), h, rfl⟩
      have he : ¬ e.1 = k := fun hc => hnd.1 (hc ▸ hk)
      simp [mapLookup, he]
      exact ih h hnd.2

end Dedup

namespace Dedup

theorem keyOf_of_name (c : DCity) (n : String) (h : c.nameOf = some n) :
    c.keyOf? = some (n.toLower ++ "_" ++ jsTemplateStr c.country) := by
  simp [DCity.keyOf?, h]

/-- Effect of one loop iteration on a single key of the map. -/
theorem dedupeStep_lookup (m : List (String × DCity)) (c : DCity) (k : String) :
    mapLookup (dedupeStep m c) k =
      if c.keyOf? = some k then stepPick (mapLookup m k) c else mapLookup m k := by
  match hn : c.nameOf with
  | none =>
    simp [dedupeStep, hn, DCity.keyOf?]
  | some n =>
    have hkey := keyOf_of_name c n hn
    set kc := n.toLower ++ "_" ++ jsTemplateStr c.country with hkc
    by_cases hk : kc = k
    · subst hk
      rw [hkey]
      simp only [if_pos rfl]
      match hl : mapLookup m kc with
      | none =>
        simp [dedupeStep, hn, hl, mapLookup_mapSet, stepPick]
      | some e =>
        by_cases hp : c.pollutionOf > e.pollutionOf
        · simp [dedupeStep, hn, hl, hp, mapLookup_mapSet, stepPick, pickHigher]
        · simp [dedupeStep, hn, hl, hp, stepPick, pickHigher]
    · have hne : ¬ c.keyOf? = some k := by
        rw [hkey]
        intro hc
        exact hk (Option.some.inj hc)
      rw [if_neg hne]
      match hl : mapLookup m kc with
      | none =>
        simp [dedupeStep, hn, hl, mapLookup_mapSet, hk, Ne.symm hk]
      | some e =>
        by_cases hp : c.pollutionOf > e.pollutionOf
        · simp [dedupeStep, hn, hl, hp, mapLookup_mapSet, Ne.symm hk]
        · simp [dedupeStep, hn, hl, hp]

/-- The whole loop, seen through one key, is the per-key fold. -/
theorem foldl_dedupeStep_lookup (cities : List DCity)
    (m : List (String × DCity)) (k : String) :
    mapLookup (cities.foldl dedupeStep m) k =
      (grp k cities).foldl stepPick (mapLookup m k) := by
  induction cities generalizing m with
  | nil => simp [grp]
  | cons c rest ih =>
    rw [List.foldl_cons, ih]
    by_cases h : c.keyOf? = some k
    · simp [grp, List.filter_cons, h, dedupeStep_lookup]
    · simp [grp, List.filter_cons, h, dedupeStep_lookup]

theorem foldl_stepPick_some (l : List DCity) (a : DCity) :
    l.foldl stepPick (some a) = some (l.foldl pickHigher a) := by
  induction l generalizing a with
  | nil => rfl
  | cons b rest ih => simp [stepPick, ih]

/-- The record held for a key is the first maximally-polluted record of
the key's group. -/
theorem lookup_eq_firstMax (cities : List DCity) (k : String) :
    mapLookup (cities.foldl dedupeStep []) k = firstMaxPollution (grp k cities) := by
  rw [foldl_dedupeStep_lookup]
  show (grp k cities).foldl stepPick none = _
  match hg : grp k cities with
  | [] => rfl
  | c :: rest =>
    simp [firstMaxPollution, stepPick, foldl_stepPick_some]

theorem le_foldl_pickHigher (l : List DCity) (a : DCity) :
    a.pollutionOf ≤ (l.foldl pickHigher a).pollutionOf := by
  induction l generalizing a with
  | nil => exact le_refl _
  | cons b rest ih =>
    rw [List.foldl_cons]
    refine le_trans ?_ (ih (pickHigher a b))
    unfold pickHigher
    split
    · exact le_of_lt (by assumption)
    · exact le_refl _

theorem foldl_pickHigher_ge (l : List DCity) (a x : DCity)
    (hx : x = a ∨ x ∈ l) :
    x.pollutionOf ≤ (l.foldl pickHigher a).pollutionOf := by
  induction l generalizing a with
  | nil =>
    rcases hx with rfl | h
    · exact le_refl _
    · simp at h
  | cons b rest ih =>
    rw [List.foldl_cons]
    have hab : a.pollutionOf ≤ (pickHigher a b).pollutionOf := by
      unfold pickHigher
      split
      · exact le_of_lt (by assumption)
      · exact le_refl _
    have hbb : b.pollutionOf ≤ (pickHigher a b).pollutionOf := by
      unfold pickHigher
      split
      · exact le_refl _
      · exact le_of_not_lt (by assumption)
    rcases hx with rfl | h
    · exact le_trans hab (le_foldl_pickHigher rest _)
    · rcases List.mem_cons.mp h with h2 | h2
      · rw [h2]
        exact le_trans hbb (le_foldl_pickHigher rest _)
      · exact ih (pickHigher a b) (Or.inr h2)

/-- The map's keys stay duplicate-free through the loop. -/
theorem nodup_keys_dedupeStep (m : List (String × DCity)) (c : DCity)
    (h : (m.map Prod.fst).Nodup) : ((dedupeStep m c).map Prod.fst).Nodup := by
  match hn : c.nameOf with
  | none => simpa [dedupeStep, hn] using h
  | some n =>
    set kc := n.toLower ++ "_" ++ jsTemplateStr c.country with hkc
    match hl : mapLookup m kc with
    | none =>
      rw [dedupeStep]
      simp only [hn, hl]
      rw [mapSet_keys_of_none m kc c hl]
      exact nodup_append_singleton _ _ (mapLookup_none_of_not_mem_keys m kc hl) h
    | some e =>
      by_cases hp : c.pollutionOf > e.pollutionOf
      · rw [dedupeStep]
        simp only [hn, hl, hp, if_pos]
        rw [mapSet_keys_of_some m kc c e hl]
        exact h
      · rw [dedupeStep]
        simp only [hn, hl, hp, if_neg]
        exact h

theorem nodup_keys_foldl (cities : List DCity) (m : List (String × DCity))
    (h : (m.map Prod.fst).Nodup) :
    ((cities.foldl dedupeStep m).map Prod.fst).Nodup := by
  induction cities generalizing m with
  | nil => exact h
  | cons c rest ih => exact ih _ (nodup_keys_dedupeStep m c h)

/-- Every map entry stores a record whose own key is the entry's key. -/
def entriesOK (m : List (String × DCity)) : Prop :=
  ∀ e ∈ m, e.2.keyOf? = some e.1

theorem entriesOK_dedupeStep (m : List (String × DCity)) (c : DCity)
    (h : entriesOK m) : entriesOK (dedupeStep m c) := by
  match hn : c.nameOf with
  | none =>
    rw [dedupeStep]
    simpa [hn] using h
  | some n =>
    have hkey := keyOf_of_name c n hn
    set kc := n.toLower ++ "_" ++ jsTemplateStr c.country with hkc
    have hset : entriesOK (mapSet m kc c) := by
      intro e he
      rcases mem_of_mapSet m kc c e he with h2 | h2
      · exact h e h2
      · rw [h2]
        exact hkey
    match hl : mapLookup m kc with
    | none =>
      rw [dedupeStep]
      simpa [hn, hl] using hset
    | some e =>
      by_cases hp : c.pollutionOf > e.pollutionOf
      · rw [dedupeStep]
        simpa [hn, hl, hp] using hset
      · rw [dedupeStep]
        simpa [hn, hl, hp] using h

theorem entriesOK_foldl (cities : List DCity) (m : List (String × DCity))
    (h : entriesOK m) : entriesOK (cities.foldl dedupeStep m) := by
  induction cities generalizing m with
  | nil => exact h
  | cons c rest ih => exact ih _ (entriesOK_dedupeStep m c h)

end Dedup

namespace Dedup

/-- At most one output record per key, derived from the map invariants. -/
theorem count_key_le_one (m : List (String × DCity))
    (hnd : (m.map Prod.fst).Nodup) (hok : entriesOK m) (k : String) :
    ((m.map Prod.snd).filter (fun d => decide (d.keyOf? = some k))).length ≤ 1 := by
  induction m with
  | nil => simp
  | cons e rest ih =>
    rw [List.map_cons, List.nodup_cons] at hnd
    have hokr : entriesOK rest := fun f hf => hok f (List.mem_cons_of_mem _ hf)
    rw [List.map_cons, List.filter_cons]
    by_cases hd : e.2.keyOf? = some k
    · have hk : k = e.1 := by
        have h1 := hok e (List.mem_cons_self _ _)
        rw [hd] at h1
        exact Option.some.inj h1
      have hempty :
          (rest.map Prod.snd).filter (fun d => decide (d.keyOf? = some k)) = [] := by
        rw [List.filter_eq_nil_iff]
        intro d hdm
        obtain ⟨f, hf, rfl⟩ := List.mem_map.mp hdm
        have hfk := hokr f hf
        simp only [hfk, decide_eq_true_eq, Option.some.injEq]
        intro hc
        exact hnd.1 (hk ▸ hc ▸ List.mem_map.mpr ⟨f, hf, rfl⟩)
      simp [hd, hempty]
    · simp only [hd, decide_False, cond_false, if_neg]
      simpa [hd] using ih hnd.2 hokr

theorem entriesOK_nil : entriesOK [] := by
  intro e he
  simp at he

/-- C1: the deduplicator keeps at most one record per
(lowercased name, country) key; the kept record attains the maximal
pollution value of its key group, with a strictly greater value replacing
the held record and ties keeping the first-seen record (it is the first
maximally-polluted record of the group); and every keyed input record is
dominated by a surviving record with its key. -/
theorem c1_dedupe_one_max_per_key (cities : List DCity) :
    (∀ k, ((removeDuplicateCities cities).filter
        (fun d => decide (d.keyOf? = some k))).length ≤ 1)
    ∧ (∀ d ∈ removeDuplicateCities cities,
        ∃ k, d.keyOf? = some k
          ∧ firstMaxPollution (grp k cities) = some d
          ∧ ∀ c ∈ cities, c.keyOf? = some k → c.pollutionOf ≤ d.pollutionOf)
    ∧ (∀ c ∈ cities, c.keyOf? ≠ none →
        ∃ d ∈ removeDuplicateCities cities,
          d.keyOf? = c.keyOf? ∧ c.pollutionOf ≤ d.pollutionOf) := by
  have hnd : ((cities.foldl dedupeStep []).map Prod.fst).Nodup :=
    nodup_keys_foldl cities [] (by simp)
  have hok : entriesOK (cities.foldl dedupeStep []) :=
    entriesOK_foldl cities [] entriesOK_nil
  refine ⟨fun k => count_key_le_one _ hnd hok k, ?_, ?_⟩
  · intro d hd
    obtain ⟨e, hmem, heq⟩ := List.mem_map.mp hd
    refine ⟨e.1, ?_, ?_, ?_⟩
    · rw [← heq]
      exact hok e hmem
    · have hl : mapLookup (cities.foldl dedupeStep []) e.1 = some e.2 :=
        mapLookup_of_mem_nodup _ _ _ (by rwa [Prod.mk.eta]) hnd
      rw [← heq, ← lookup_eq_firstMax]
      exact hl
    · intro c hc hck
      have hcg : c ∈ grp e.1 cities :=
        List.mem_filter.mpr ⟨hc, by simp [hck]⟩
      have hl : mapLookup (cities.foldl dedupeStep []) e.1 = some e.2 :=
        mapLookup_of_mem_nodup _ _ _ (by rwa [Prod.mk.eta]) hnd
      rw [lookup_eq_firstMax] at hl
      match hg : grp e.1 cities with
      | [] =>
        rw [hg] at hcg
        simp at hcg
      | c0 :: rest =>
        rw [hg] at hl
        have hd2 : rest.foldl pickHigher c0 = e.2 := by
          simpa [firstMaxPollution] using hl
        rw [hg] at hcg
        rw [← heq, ← hd2]
        rcases List.mem_cons.mp hcg with h2 | h2
        · exact foldl_pickHigher_ge rest c0 c (Or.inl h2)
        · exact foldl_pickHigher_ge rest c0 c (Or.inr h2)
  · intro c hc hck
    match hkk : c.keyOf? with
    | none => exact absurd hkk hck
    | some k =>
      have hcg : c ∈ grp k cities :=
        List.mem_filter.mpr ⟨hc, by simp [hkk]⟩
      match hg : grp k cities with
      | [] =>
        rw [hg] at hcg
        simp at hcg
      | c0 :: rest =>
        have hl : mapLookup (cities.foldl dedupeStep []) k =
            some (rest.foldl pickHigher c0) := by
          rw [lookup_eq_firstMax, hg]
          rfl
        have hmem := mem_of_mapLookup _ _ _ hl
        refine ⟨rest.foldl pickHigher c0, ?_, ?_, ?_⟩
        · exact List.mem_map.mpr ⟨(k, rest.foldl pickHigher c0), hmem, rfl⟩
        · exact hok _ hmem
        · rw [hg] at hcg
          rcases List.mem_cons.mp hcg with h2 | h2
          · exact foldl_pickHigher_ge rest c0 c (Or.inl h2)
          · exact foldl_pickHigher_ge rest c0 c (Or.inr h2)

theorem dedupeStep_skip (m : List (String × DCity)) (c : DCity)
    (h : c.nameOf = none) : dedupeStep m c = m := by
  simp [dedupeStep, h]

/-- C10: nameless records (every alias absent or empty) are silently
dropped: deduplicating is the same as deduplicating only the named
records, and a nameless input record never appears in the output. -/
theorem c10_nameless_dropped (cities : List DCity) :
    removeDuplicateCities cities =
      removeDuplicateCities (cities.filter (fun c => c.nameOf.isSome))
    ∧ ∀ c ∈ cities, c.nameOf = none → c ∉ removeDuplicateCities cities := by
  constructor
  · have h : ∀ (m : List (String × DCity)),
        cities.foldl dedupeStep m =
          (cities.filter (fun c => c.nameOf.isSome)).foldl dedupeStep m := by
      induction cities with
      | nil => intro m; rfl
      | cons c rest ih =>
        intro m
        match hn : c.nameOf with
        | none =>
          rw [List.filter_cons]
          simp only [hn, Option.isSome_none, Bool.false_eq_true, if_neg,
            List.foldl_cons]
          rw [dedupeStep_skip m c hn]
          exact ih m
        | some n =>
          rw [List.filter_cons]
          simp only [hn, Option.isSome_some, if_pos, List.foldl_cons]
          exact ih _
    unfold removeDuplicateCities
    rw [h []]
  · intro c hc hn hout
    have hok : entriesOK (cities.foldl dedupeStep []) :=
      entriesOK_foldl cities [] entriesOK_nil
    obtain ⟨e, hmem, heq⟩ := List.mem_map.mp hout
    have hkey := hok e hmem
    rw [heq] at hkey
    rw [DCity.keyOf?, hn] at hkey
    simp at hkey

end Dedup

namespace Dedup

/-- The spec's scenario record: Warsaw, Poland, pollution 45. -/
def warsaw45 : DCity :=
  { correctedName := some "Warsaw", city := none, name := none, cityName := none,
    country := some "Poland", aqi := some 45, pollution := none,
    airQualityIndex := none }

/-- The spec's scenario record: Warsaw, Poland, pollution 52. -/
def warsaw52 : DCity :=
  { correctedName := some "Warsaw", city := none, name := none, cityName := none,
    country := some "Poland", aqi := some 52, pollution := none,
    airQualityIndex := none }

/-- A record with every name alias absent. -/
def namelessCity : DCity :=
  { correctedName := none, city := none, name := none, cityName := none,
    country := some "Poland", aqi := some 10, pollution := none,
    airQualityIndex := none }

end Dedup

/-- Witness for C1 at the spec's duplicate-Warsaw scenario. -/
theorem c1_dedupe_one_max_per_key_witness :
    ∃ d ∈ Dedup.removeDuplicateCities [Dedup.warsaw45, Dedup.warsaw52],
      d.keyOf? = Dedup.warsaw45.keyOf? ∧
      Dedup.warsaw45.pollutionOf ≤ d.pollutionOf :=
  (Dedup.c1_dedupe_one_max_per_key [Dedup.warsaw45, Dedup.warsaw52]).2.2
    Dedup.warsaw45 (List.mem_cons_self _ _) (by decide)

/-- Witness for C10: the nameless record does not survive deduplication. -/
theorem c10_nameless_dropped_witness :
    Dedup.namelessCity ∉
      Dedup.removeDuplicateCities [Dedup.namelessCity, Dedup.warsaw45] :=
  (Dedup.c10_nameless_dropped [Dedup.namelessCity, Dedup.warsaw45]).2
    Dedup.namelessCity (List.mem_cons_self _ _) rfl

/-! ## Paginator (`applyPaginationToData`, pollution API service) -/

namespace Paginate

/-- The destructured `{ page, limit = 9 }` argument: `limit` defaults to 9
only when the property is absent. -/
structure PaginationParams where
  page : Int
  limit : Option Int

/-- The object returned by `applyPaginationToData`. -/
structure PaginatedResult (α : Type) where
  cities : List α
  totalCount : Nat
  totalPages : Int
  currentPage : Int
  limit : Int

/-- Clamp one JS `Array.prototype.slice` index into `[0, len]`:
a negative index counts from the end. -/
def jsSliceIdx (len : Nat) (i : Int) : Nat :=
  if i < 0 then (len + i).toNat else min i.toNat len

/-- JS `Array.prototype.slice(s, e)`. -/
def jsSlice {α : Type} (l : List α) (s e : Int) : List α :=
  (l.take (jsSliceIdx l.length e)).drop (jsSliceIdx l.length s)

/-- `applyPaginationToData`: `totalCount` is the length of the full input,
`startIndex = (page - 1) * limit`, `endIndex = startIndex + limit`, and the
page is `filteredData.slice(startIndex, endIndex)`.  `totalPages` is
`Math.ceil(totalCount / limit)` (for `limit = 0` JS would give `Infinity`,
which the rational model cannot represent; no claim touches that field). -/
def applyPaginationToData {α : Type} (filteredData : List α)
    (pagination : PaginationParams) : PaginatedResult α :=
  let limit := pagination.limit.getD 9
  let totalCount := filteredData.length
  let totalPages := (((totalCount : ℚ) / (limit : ℚ)).ceil)
  let startIndex := (pagination.page - 1) * limit
  let endIndex := startIndex + limit
  { cities := jsSlice filteredData startIndex endIndex
    totalCount := totalCount
    totalPages := totalPages
    currentPage := pagination.page
    limit := limit }

end Paginate

/-- C2: for every record list, page ≥ 1 and page size ≥ 0, the paginator
reports `totalCount` as the length of the full input list, returns the
slice from `(page-1)*pageSize` of length at most `pageSize`, and an
out-of-range start yields an empty page (with `totalCount` untouched by
the first conjunct). -/
theorem c2_pagination_total_and_slice {α : Type} (data : List α)
    (page limit : Int) (hp : 1 ≤ page) (hl : 0 ≤ limit) :
    (Paginate.applyPaginationToData data ⟨page, some limit⟩).totalCount
        = data.length
    ∧ (Paginate.applyPaginationToData data ⟨page, some limit⟩).cities
        = (data.drop ((page - 1) * limit).toNat).take limit.toNat
    ∧ (data.length ≤ ((page - 1) * limit).toNat →
        (Paginate.applyPaginationToData data ⟨page, some limit⟩).cities = []) := by
  have hs0 : 0 ≤ (page - 1) * limit := mul_nonneg (by omega) hl
  have hcities : (Paginate.applyPaginationToData data ⟨page, some limit⟩).cities
      = Paginate.jsSlice data ((page - 1) * limit) ((page - 1) * limit + limit) := rfl
  set s := (page - 1) * limit with hsdef
  have he0 : 0 ≤ s + limit := by omega
  have hidx1 : Paginate.jsSliceIdx data.length s = min s.toNat data.length := by
    rw [Paginate.jsSliceIdx, if_neg (by omega)]
  have hidx2 : Paginate.jsSliceIdx data.length (s + limit)
      = min (s + limit).toNat data.length := by
    rw [Paginate.jsSliceIdx, if_neg (by omega)]
  have htoNat : (s + limit).toNat = s.toNat + limit.toNat := by omega
  have hconj2 : (Paginate.applyPaginationToData data ⟨page, some limit⟩).cities
      = (data.drop s.toNat).take limit.toNat := by
    rw [hcities]
    simp only [Paginate.jsSlice]
    rw [hidx1, hidx2, htoNat]
    by_cases hlen : data.length ≤ s.toNat
    · rw [min_eq_right hlen]
      rw [List.drop_eq_nil_iff.mpr hlen, List.take_nil, List.drop_eq_nil_iff,
        List.length_take]
      omega
    · push_neg at hlen
      rw [min_eq_left (le_of_lt hlen), List.take_drop]
      congr 1
      by_cases h2 : s.toNat + limit.toNat ≤ data.length
      · rw [min_eq_left h2]
      · push_neg at h2
        rw [min_eq_right (le_of_lt h2), List.take_length,
          List.take_of_length_le (le_of_lt h2)]
  refine ⟨rfl, hconj2, ?_⟩
  intro hlen
  rw [hconj2, List.drop_eq_nil_iff.mpr hlen, List.take_nil]

/-- Witness for C2: the spec's 45-record scenario with pageSize 9, page 1,
plus an out-of-range page. -/
theorem c2_pagination_witness :
    (Paginate.applyPaginationToData (List.range 45) ⟨1, some 9⟩).totalCount = 45
    ∧ (Paginate.applyPaginationToData (List.range 45) ⟨1, some 9⟩).cities
        = ((List.range 45).drop 0).take 9 := by
  have h := c2_pagination_total_and_slice (List.range 45) 1 9
    (by omega) (by omega)
  refine ⟨by rw [h.1]; rfl, ?_⟩
  rw [h.2.1]
  rfl

/-! ## Reputation Store (`DatabaseService`, SQLite `invalid_cities` table)

The table maps the composite key (city_name, country_code) to its
`invalid_count`; the timestamp columns play no part in any claim and are
omitted.  The table-existence guards and I/O error paths of the source
assume a healthy database here. -/

namespace Database

/-- The `invalid_cities` rows: key and `invalid_count`. -/
abbrev InvalidDb := List ((String × String) × Nat)

/-- Point lookup of a row's count (SQL `WHERE city_name = ? AND
country_code = ?` with the primary key making the row unique). -/
def dbLookup : InvalidDb → String → String → Option Nat
| [], _, _ => none
| e :: rest, cityName, countryCode =>
  if e.1 = (cityName, countryCode) then some e.2
  else dbLookup rest cityName countryCode

/-- The object returned by `markCityInvalid`. -/
structure MarkResult where
  success : Bool
  invalidCount : Nat
  isBlocked : Bool
deriving DecidableEq

/-- `markCityInvalid`: the `INSERT ... ON CONFLICT ... DO UPDATE SET
invalid_count = invalid_count + 1 ... RETURNING invalid_count` upsert,
with `isBlocked := invalid_count >= 3` computed on the returned count. -/
def markCityInvalid (db : InvalidDb) (cityName countryCode : String) :
    InvalidDb × MarkResult :=
  match dbLookup db cityName countryCode with
  | some n =>
    (db.map (fun e => if e.1 = (cityName, countryCode) then (e.1, e.2 + 1) else e),
     { success := true, invalidCount := n + 1, isBlocked := decide (3 ≤ n + 1) })
  | none =>
    (db ++ [((cityName, countryCode), 1)],
     { success := true, invalidCount := 1, isBlocked := decide (3 ≤ 1) })

/-- `isCityBlocked`: `invalid_count >= 3` on the stored row, `false` when
the row is absent. -/
def isCityBlocked (db : InvalidDb) (cityName countryCode : String) : Bool :=
  match dbLookup db cityName countryCode with
  | some n => decide (3 ≤ n)
  | none => false

/-- The object returned by `removeInvalidCity`. -/
structure RemoveResult where
  success : Bool
  changes : Nat
deriving DecidableEq

/-- `removeInvalidCity`: `DELETE FROM invalid_cities WHERE city_name = ?
AND country_code = ?`, reporting the number of deleted rows. -/
def removeInvalidCity (db : InvalidDb) (cityName countryCode : String) :
    InvalidDb × RemoveResult :=
  let remaining := db.filter (fun e => !(decide (e.1 = (cityName, countryCode))))
  let changes := db.length - remaining.length
  (remaining, { success := decide (0 < changes), changes := changes })

theorem dbLookup_append_of_none (db : InvalidDb) (c k : String) (n : Nat)
    (h : dbLookup db c k = none) :
    dbLookup (db ++ [((c, k), n)]) c k = some n := by
  induction db with
  | nil => simp [dbLookup]
  | cons e rest ih =>
    by_cases he : e.1 = (c, k)
    · simp [dbLookup, he] at h
    · simp only [dbLookup, he] at h
      simp only [List.cons_append, dbLookup, if_neg he]
      exact ih h

theorem dbLookup_map_incr (db : InvalidDb) (c k : String) (n : Nat)
    (h : dbLookup db c k = some n) :
    dbLookup (db.map (fun e => if e.1 = (c, k) then (e.1, e.2 + 1) else e)) c k
      = some (n + 1) := by
  induction db with
  | nil => simp [dbLookup] at h
  | cons e rest ih =>
    by_cases he : e.1 = (c, k)
    · simp only [dbLookup, if_pos he] at h
      simp only [List.map_cons, if_pos he, dbLookup, if_pos he]
      rw [Option.some.inj h]
    · simp only [dbLookup, if_neg he] at h
      simp only [List.map_cons, if_neg he, dbLookup, if_neg he]
      exact ih h

theorem markCityInvalid_lookup (db : InvalidDb) (c k : String) :
    dbLookup (markCityInvalid db c k).1 c k
      = some ((dbLookup db c k).getD 0 + 1) := by
  match h : dbLookup db c k with
  | some n =>
    simp only [markCityInvalid, h]
    exact dbLookup_map_incr db c k n h
  | none =>
    simp only [markCityInvalid, h]
    exact dbLookup_append_of_none db c k 1 h

theorem markCityInvalid_isBlocked (db : InvalidDb) (c k : String) :
    (markCityInvalid db c k).2.isBlocked
      = decide (3 ≤ (dbLookup db c k).getD 0 + 1) := by
  match h : dbLookup db c k with
  | some n => simp [markCityInvalid, h]
  | none => simp [markCityInvalid, h]

theorem markCityInvalid_invalidCount (db : InvalidDb) (c k : String) :
    (markCityInvalid db c k).2.invalidCount = (dbLookup db c k).getD 0 + 1 := by
  match h : dbLookup db c k with
  | some n => simp [markCityInvalid, h]
  | none => simp [markCityInvalid, h]

theorem removeInvalidCity_lookup (db : InvalidDb) (c k : String) :
    dbLookup (removeInvalidCity db c k).1 c k = none := by
  show dbLookup (db.filter _) c k = none
  induction db with
  | nil => rfl
  | cons e rest ih =>
    by_cases he : e.1 = (c, k)
    · simpa [List.filter_cons, he] using ih
    · simpa [List.filter_cons, he, dbLookup] using ih

end Database

/-- C4: starting from an absent row, three flags block the key and two do
not, both through the value returned by the third/second flag and through
`isCityBlocked`; and `isCityBlocked` is exactly the predicate
`invalid_count >= 3` on the stored count (false for an absent row). -/
theorem c4_three_flags_block (db : Database.InvalidDb) (c k : String)
    (h : Database.dbLookup db c k = none) :
    (let db1 := (Database.markCityInvalid db c k).1
     let db2 := (Database.markCityInvalid db1 c k).1
     let db3 := (Database.markCityInvalid db2 c k).1
     (Database.markCityInvalid db2 c k).2.isBlocked = true
     ∧ Database.isCityBlocked db3 c k = true
     ∧ (Database.markCityInvalid db1 c k).2.isBlocked = false
     ∧ Database.isCityBlocked db2 c k = false)
    ∧ ∀ db' : Database.InvalidDb,
        Database.isCityBlocked db' c k
          = decide (3 ≤ (Database.dbLookup db' c k).getD 0) := by
  have h1 : Database.dbLookup (Database.markCityInvalid db c k).1 c k = some 1 := by
    rw [Database.markCityInvalid_lookup, h]
    rfl
  have h2 : Database.dbLookup
      (Database.markCityInvalid (Database.markCityInvalid db c k).1 c k).1 c k
      = some 2 := by
    rw [Database.markCityInvalid_lookup, h1]
    rfl
  have h3 : Database.dbLookup
      (Database.markCityInvalid
        (Database.markCityInvalid (Database.markCityInvalid db c k).1 c k).1 c k).1
      c k = some 3 := by
    rw [Database.markCityInvalid_lookup, h2]
    rfl
  refine ⟨⟨?_, ?_, ?_, ?_⟩, ?_⟩
  · rw [Database.markCityInvalid_isBlocked, h2]
    rfl
  · simp [Database.isCityBlocked, h3]
  · rw [Database.markCityInvalid_isBlocked, h1]
    rfl
  · simp [Database.isCityBlocked, h2]
  · intro db'
    rw [Database.isCityBlocked]
    match hd : Database.dbLookup db' c k with
    | some n => simp
    | none => simp

/-- Witness for C4 from the empty table. -/
theorem c4_three_flags_block_witness :
    Database.isCityBlocked
      (Database.markCityInvalid
        (Database.markCityInvalid
          (Database.markCityInvalid [] "Warsaw" "PL").1 "Warsaw" "PL").1
        "Warsaw" "PL").1 "Warsaw" "PL" = true
    ∧ Database.isCityBlocked
        (Database.markCityInvalid
          (Database.markCityInvalid [] "Warsaw" "PL").1 "Warsaw" "PL").1
        "Warsaw" "PL" = false := by
  have h := c4_three_flags_block [] "Warsaw" "PL" rfl
  exact ⟨h.1.2.1, h.1.2.2.2⟩

/-- C5: for every prior table contents, deleting the row and flagging once
stores a fresh count of 1, which the flag also reports. -/
theorem c5_unflag_then_flag_resets (db : Database.InvalidDb) (c k : String) :
    Database.dbLookup
      (Database.markCityInvalid (Database.removeInvalidCity db c k).1 c k).1 c k
      = some 1
    ∧ (Database.markCityInvalid (Database.removeInvalidCity db c k).1 c k).2.invalidCount
      = 1 := by
  have h := Database.removeInvalidCity_lookup db c k
  constructor
  · rw [Database.markCityInvalid_lookup, h]
    rfl
  · rw [Database.markCityInvalid_invalidCount, h]
    rfl

/-! ## Name canonicalization (`CityValidator` with Google Places enabled,
`src/utils/validation.js`)

The network fetch (plus its JSON decode) is an oracle
`String → Except Unit GPResponse`; `Except.error` models a thrown error.
The 24-hour validation cache is an association list from cache key to the
stored result object. -/

namespace Places

/-- A `predictions[i]` entry: the fields the code reads. -/
structure GPPrediction where
  types : Option (List String)
  description : Option String

/-- The decoded Autocomplete response body. -/
structure GPResponse where
  predictions : Option (List GPPrediction)

/-- The result object of `validateWithGooglePlaces` / `isValidCityName`;
`reason` is only attached on the Places code paths. -/
structure GPResult where
  isValid : Bool
  correctedName : Option String
  reason : Option String
deriving DecidableEq

/-- The 24-hour validation cache (`google_places_validation_<name>`). -/
abbrev GPCache := List (String × GPResult)

def gpCacheGet : GPCache → String → Option GPResult
| [], _ => none
| e :: rest, k => if e.1 = k then some e.2 else gpCacheGet rest k

/-- node-cache `set`: replace the existing entry or append a new one. -/
def gpCacheSet : GPCache → String → GPResult → GPCache
| [], k, v => [(k, v)]
| e :: rest, k, v => if e.1 = k then (e.1, v) :: rest else e :: gpCacheSet rest k v

/-- `this.cacheKey` of the validator. -/
def gpCacheKeyBase : String := "google_places_validation"

/-- `extractCityNameFromDescription`: first comma-separated part, trimmed
and with inner whitespace runs collapsed. -/
def extractCityNameFromDescription (description : Option String) : String :=
  match description with
  | some d =>
    if d = "" then ""
    else
      let cityName := jsTrim ((d.splitOn ",").headD "")
      collapseWsStr (jsTrim cityName)
  | none => ""

/-- `validateWithGooglePlaces`: pass-through when no API key is
configured; otherwise consult the cache, then the Autocomplete fetch
(whose failure is rethrown), classify the top prediction, and cache the
outcome. -/
def validateWithGooglePlaces (apiKey : Option String)
    (fetchO : String → Except Unit GPResponse) (st : GPCache)
    (cityName : String) : Except Unit (GPResult × GPCache) :=
  if !(jsFieldTruthy (apiKey.map JsVal.str)) then
    .ok ({ isValid := true, correctedName := some cityName, reason := none }, st)
  else
    let cacheKey := gpCacheKeyBase ++ "_" ++ cityName.toLower
    match gpCacheGet st cacheKey with
    | some cachedResult => .ok (cachedResult, st)
    | none =>
      match fetchO cityName with
      | .error e => .error e
      | .ok data =>
        match data.predictions with
        | none =>
          let result : GPResult :=
            { isValid := false, correctedName := none,
              reason := some "no_matching_place" }
          .ok (result, gpCacheSet st cacheKey result)
        | some [] =>
          let result : GPResult :=
            { isValid := false, correctedName := none,
              reason := some "no_matching_place" }
          .ok (result, gpCacheSet st cacheKey result)
        | some (prediction :: _) =>
          let isValidCityType :=
            match prediction.types with
            | some ts =>
              ts.contains "locality" ||
                ts.contains "administrative_area_level_1"
            | none => false
          if !isValidCityType then
            let result : GPResult :=
              { isValid := false, correctedName := none,
                reason := some "invalid_city_type" }
            .ok (result, gpCacheSet st cacheKey result)
          else
            let correctedName :=
              extractCityNameFromDescription prediction.description
            let result : GPResult :=
              { isValid := true, correctedName := some correctedName,
                reason := some "valid_city" }
            .ok (result, gpCacheSet st cacheKey result)

/-- `isValidCityName`: type and length pre-checks, then the Places call
with its catch clause accepting the trimmed name unmodified when the call
throws (fail open). -/
def isValidCityName (apiKey : Option String)
    (fetchO : String → Except Unit GPResponse) (st : GPCache)
    (cityName : JsVal) : GPResult × GPCache :=
  match cityName with
  | .str s =>
    let trimmedName := jsTrim s
    if trimmedName.length < Validator.minNameLength ||
        Validator.maxNameLength < trimmedName.length then
      ({ isValid := false, correctedName := none, reason := none }, st)
    else
      match validateWithGooglePlaces apiKey fetchO st trimmedName with
      | .ok r => r
      | .error _ =>
        ({ isValid := true, correctedName := some trimmedName, reason := none }, st)
  | _ => ({ isValid := false, correctedName := none, reason := none }, st)

end Places

/-- C6: for a name of valid trimmed length, when the canonical-name lookup
is unavailable (no API key) or fails (uncached fetch throws), the
validator fails open: it returns `isValid = true` with the original
trimmed name as the corrected name and leaves the cache untouched — the
failure is absorbed, never surfaced (the embedding returns a plain value
by construction of the catch clause). -/
theorem c6_lookup_failure_fails_open (apiKey : Option String)
    (fetchO : String → Except Unit Places.GPResponse) (st : Places.GPCache)
    (s : String)
    (hmin : Validator.minNameLength ≤ (jsTrim s).length)
    (hmax : (jsTrim s).length ≤ Validator.maxNameLength)
    (hcache : Places.gpCacheGet st
      (Places.gpCacheKeyBase ++ "_" ++ (jsTrim s).toLower) = none)
    (hfail : fetchO (jsTrim s) = .error ()) :
    Places.isValidCityName apiKey fetchO st (.str s)
      = ({ isValid := true, correctedName := some (jsTrim s), reason := none }, st) := by
  rw [Places.isValidCityName]
  rw [if_neg (by
    simp only [Bool.or_eq_true, decide_eq_true_eq, not_or, not_lt]
    exact ⟨hmin, hmax⟩)]
  match hk : apiKey with
  | none =>
    rw [Places.validateWithGooglePlaces]
    rfl
  | some key =>
    rw [Places.validateWithGooglePlaces]
    by_cases htruthy : key = ""
    · rw [htruthy]
      rfl
    · rw [if_neg (by simp [jsFieldTruthy, JsVal.truthy, htruthy])]
      simp only [hcache, hfail]

/-- Witness for C6 with a configured key, an empty cache and a failing
fetch. -/
theorem c6_lookup_failure_fails_open_witness :
    Places.isValidCityName (some "key") (fun _ => .error ()) [] (.str "Warsaw")
      = ({ isValid := true, correctedName := some (jsTrim "Warsaw"),
           reason := none }, []) :=
  c6_lookup_failure_fails_open (some "key") (fun _ => .error ()) [] "Warsaw"
    (by decide) (by decide) rfl rfl

/-! ## Wikipedia description cleaning (`cleanDescription`,
wikipedia service) -/

namespace Wikipedia

/-- The whitespace-normalization pipeline of `cleanDescription`:
`replace(/\s+/g, ' ')`, then `trim()`, then `replace(/\n/g, ' ')` (the
last pass is applied as in the source although no newline survives the
first). -/
def normalizeWs (extract : String) : List Char :=
  (jsTrimList (collapseWs extract.data)).map
    (fun ch => if ch = '\n' then ' ' else ch)

/-- `cleanDescription`: `null` for a falsy or non-string extract,
otherwise the normalized text truncated to 297 characters plus `"..."`
when longer than 300. -/
def cleanDescription (extract : JsField) : Option String :=
  match extract with
  | some (.str s) =>
    if s = "" then none
    else
      let cleaned := normalizeWs s
      if 300 < cleaned.length then some ⟨cleaned.take 297 ++ ("...").data⟩
      else some ⟨cleaned⟩
  | _ => none

end Wikipedia

/-- C9: a cleaned description is never longer than 300 characters; a
normalized extract longer than 300 characters comes back as its first 297
characters plus `"..."`; and a non-string or empty extract yields `null`
rather than a string. -/
theorem c9_clean_description_bounds (extract : JsField) :
    (∀ s, Wikipedia.cleanDescription extract = some s → s.length ≤ 300)
    ∧ (∀ s, extract = some (.str s) → s ≠ "" →
        300 < (Wikipedia.normalizeWs s).length →
        Wikipedia.cleanDescription extract
          = some ⟨(Wikipedia.normalizeWs s).take 297 ++ ("...").data⟩)
    ∧ ((∀ s, extract = some (.str s) → s = "") →
        Wikipedia.cleanDescription extract = none) := by
  refine ⟨?_, ?_, ?_⟩
  · intro s hs
    match extract with
    | some (.str t) =>
      rw [Wikipedia.cleanDescription] at hs
      by_cases ht : t = ""
      · rw [if_pos ht] at hs
        exact absurd hs (by simp)
      · rw [if_neg ht] at hs
        by_cases hlen : 300 < (Wikipedia.normalizeWs t).length
        · rw [if_pos hlen] at hs
          have hs2 := Option.some.inj hs
          rw [← hs2]
          show ((Wikipedia.normalizeWs t).take 297 ++ ("...").data).length ≤ 300
          rw [List.length_append, List.length_take]
          have : ("...").data.length = 3 := rfl
          omega
        · rw [if_neg hlen] at hs
          have hs2 := Option.some.inj hs
          rw [← hs2]
          show (Wikipedia.normalizeWs t).length ≤ 300
          omega
    | some (.num n) => simp [Wikipedia.cleanDescription] at hs
    | some .vNull => simp [Wikipedia.cleanDescription] at hs
    | none => simp [Wikipedia.cleanDescription] at hs
  · intro s hs hne hlen
    rw [hs, Wikipedia.cleanDescription, if_neg hne, if_pos hlen]
  · intro hs
    match extract with
    | some (.str t) =>
      rw [Wikipedia.cleanDescription, if_pos (hs t rfl)]
    | some (.num n) => rfl
    | some .vNull => rfl
    | none => rfl

/-- Witness for C9 on a short extract and on a non-string extract. -/
theorem c9_clean_description_witness :
    (∀ s, Wikipedia.cleanDescription (some (.str "Warsaw is nice")) = some s →
      s.length ≤ 300)
    ∧ Wikipedia.cleanDescription (some (.num .nan)) = none :=
  ⟨(c9_clean_description_bounds (some (.str "Warsaw is nice"))).1,
   (c9_clean_description_bounds (some (.num .nan))).2.2 (by simp)⟩


/-! ## Enrichment Engine (`enrichCitiesWithDescriptions` / `chunkArray`,
`src/controllers/citiesController.js`)

`getCorrectedCityName` never throws in the source (it has its own catch
returning the input), so it is a total oracle `String → String`; the
Wikipedia lookup is an oracle returning a description, `null`, or a thrown
error.  Concurrent lookups inside a batch are scheduled sequentially; the
claim's properties do not depend on the interleaving of cache writes. -/

namespace Enrich

/-- A record at the enrichment stage; `description` is the field the stage
adds, the rest is carried through the object spread. -/
structure ECity where
  city : Option String
  name : Option String
  cityName : Option String
  country : Option String
  countryCode : Option String
  aqi : Option ℚ
  description : Option String
deriving DecidableEq

/-- The fixed fallback description string. -/
def fallbackDescription : String := "No description available"

/-- A `||` alias chain over string fields with a final default literal. -/
def firstTruthyStr : List (Option String) → String → String
| [], dflt => dflt
| a :: rest, dflt =>
  match a with
  | some s => if s = "" then firstTruthyStr rest dflt else s
  | none => firstTruthyStr rest dflt

/-- `city.city || city.name || city.cityName || 'Unknown City'`. -/
def rawCityNameOf (city : ECity) : String :=
  firstTruthyStr [city.city, city.name, city.cityName] "Unknown City"

/-- `city.country || city.countryCode || ''`. -/
def countryCodeOf (city : ECity) : String :=
  firstTruthyStr [city.country, city.countryCode] ""

/-- The 7-day description cache: key to stored string value. -/
abbrev DescCache := List (String × String)

def cacheGetS : DescCache → String → Option String
| [], _ => none
| e :: rest, k => if e.1 = k then some e.2 else cacheGetS rest k

/-- node-cache `set`: replace the existing entry or append a new one. -/
def cacheSetS : DescCache → String → String → DescCache
| [], k, v => [(k, v)]
| e :: rest, k, v => if e.1 = k then (e.1, v) :: rest else e :: cacheSetS rest k v

/-- `description || 'No description available'` on a defined string. -/
def jsStrOrFallback (s : String) : String :=
  if s = "" then fallbackDescription else s

/-- `description || 'No description available'` on a string-or-null. -/
def jsOptStrOrFallback : Option String → String
| some s => jsStrOrFallback s
| none => fallbackDescription

/-- The cache key
`wikipedia_description:<corrected name lowercased>:<country code lowercased>`. -/
def enrichCacheKey (corr : String → String) (city : ECity) : String :=
  "wikipedia_description:" ++ (corr (rawCityNameOf city)).toLower ++ ":" ++
    (countryCodeOf city).toLower

/-- The cache-miss path: fetch from the Wikipedia service, cache
`description || fallback`, and attach the same string; a thrown lookup is
caught and the record gets the bare fallback with the cache untouched. -/
def enrichFetch (wiki : String → Option String → Except Unit (Option String))
    (st : DescCache) (city : ECity) (correctedCityName cacheKey : String) :
    DescCache × ECity :=
  match wiki correctedCityName city.country with
  | .error _ => (st, { city with description := some fallbackDescription })
  | .ok res =>
    (cacheSetS st cacheKey (jsOptStrOrFallback res),
     { city with description := some (jsOptStrOrFallback res) })

/-- Enrichment of a single record: corrected name, cache probe, fetch on
miss (or on a cached falsy value), `description || fallback` on the way
out. -/
def enrichOne (corr : String → String)
    (wiki : String → Option String → Except Unit (Option String))
    (st : DescCache) (city : ECity) : DescCache × ECity :=
  let correctedCityName := corr (rawCityNameOf city)
  let cacheKey := enrichCacheKey corr city
  match cacheGetS st cacheKey with
  | some d =>
    if d = "" then enrichFetch wiki st city correctedCityName cacheKey
    else (st, { city with description := some (jsStrOrFallback d) })
  | none => enrichFetch wiki st city correctedCityName cacheKey

/-- Sequential processing of one batch (the `chunk.map` + `Promise.all`,
scheduled left to right). -/
def enrichList (corr : String → String)
    (wiki : String → Option String → Except Unit (Option String)) :
    DescCache → List ECity → DescCache × List ECity
| st, [] => (st, [])
| st, c :: rest =>
  let r1 := enrichOne corr wiki st c
  let r2 := enrichList corr wiki r1.1 rest
  (r2.1, r1.2 :: r2.2)

/-- The `for (const chunk of chunks)` loop with
`enrichedCities.push(...chunkResults)`. -/
def enrichChunks (corr : String → String)
    (wiki : String → Option String → Except Unit (Option String)) :
    DescCache → List (List ECity) → DescCache × List ECity
| st, [] => (st, [])
| st, chunk :: rest =>
  let r1 := enrichList corr wiki st chunk
  let r2 := enrichChunks corr wiki r1.1 rest
  (r2.1, r1.2 ++ r2.2)

/-- `chunkArray`: successive slices of length `chunkSize` (the source
loops forever on `chunkSize = 0`; it is only called with 5, and the model
returns `[]` there). -/
def chunkArray {α : Type} (l : List α) (chunkSize : Nat) : List (List α) :=
  if h : l.length = 0 ∨ chunkSize = 0 then []
  else l.take chunkSize :: chunkArray (l.drop chunkSize) chunkSize
termination_by l.length
decreasing_by
  push_neg at h
  simp only [List.length_drop]
  omega

/-- The batch size (`concurrencyLimit = 5`). -/
def concurrencyLimit : Nat := 5

/-- `enrichCitiesWithDescriptions`: chunk, then process batch after
batch. -/
def enrichCitiesWithDescriptions (corr : String → String)
    (wiki : String → Option String → Except Unit (Option String))
    (st : DescCache) (validCities : List ECity) : DescCache × List ECity :=
  enrichChunks corr wiki st (chunkArray validCities concurrencyLimit)

/-- A record with its `description` removed: the part the stage must
carry through untouched. -/
def stripDescription (c : ECity) : ECity := { c with description := none }

theorem chunkArray_flatten {α : Type} (l : List α) (n : Nat) (hn : n ≠ 0) :
    (chunkArray l n).flatten = l := by
  rw [chunkArray]
  by_cases h : l.length = 0 ∨ n = 0
  · rw [dif_pos h]
    rcases h with h | h
    · rw [List.eq_nil_of_length_eq_zero h]
      rfl
    · exact absurd h hn
  · rw [dif_neg h, List.flatten_cons, chunkArray_flatten (l.drop n) n hn,
      List.take_append_drop]
termination_by l.length
decreasing_by
  push_neg at h
  simp only [List.length_drop]
  omega

theorem enrichList_append (corr : String → String)
    (wiki : String → Option String → Except Unit (Option String))
    (st : DescCache) (l1 l2 : List ECity) :
    enrichList corr wiki st (l1 ++ l2)
      = ((enrichList corr wiki (enrichList corr wiki st l1).1 l2).1,
         (enrichList corr wiki st l1).2 ++
           (enrichList corr wiki (enrichList corr wiki st l1).1 l2).2) := by
  induction l1 generalizing st with
  | nil => simp [enrichList]
  | cons c rest ih =>
    simp only [List.cons_append, enrichList, List.append_eq]
    rw [ih]

theorem enrichChunks_eq_flatten (corr : String → String)
    (wiki : String → Option String → Except Unit (Option String))
    (st : DescCache) (chunks : List (List ECity)) :
    enrichChunks corr wiki st chunks
      = enrichList corr wiki st chunks.flatten := by
  induction chunks generalizing st with
  | nil => rfl
  | cons chunk rest ih =>
    rw [List.flatten_cons, enrichList_append, enrichChunks]
    rw [ih]

theorem enrichFetch_shape
    (wiki : String → Option String → Except Unit (Option String))
    (st : DescCache) (city : ECity) (cn ck : String) :
    ∃ st' d, enrichFetch wiki st city cn ck
      = (st', { city with description := some d }) := by
  rw [enrichFetch]
  split
  · exact ⟨st, fallbackDescription, rfl⟩
  · exact ⟨_, _, rfl⟩

theorem enrichOne_shape (corr : String → String)
    (wiki : String → Option String → Except Unit (Option String))
    (st : DescCache) (city : ECity) :
    ∃ st' d, enrichOne corr wiki st city
      = (st', { city with description := some d }) := by
  rw [enrichOne]
  split
  · split
    · exact enrichFetch_shape wiki st city _ _
    · exact ⟨st, _, rfl⟩
  · exact enrichFetch_shape wiki st city _ _

theorem enrichList_spec (corr : String → String)
    (wiki : String → Option String → Except Unit (Option String))
    (cities : List ECity) (st : DescCache) :
    (enrichList corr wiki st cities).2.length = cities.length
    ∧ ∀ (i : Nat) r0 r1, cities[i]? = some r0 →
        (enrichList corr wiki st cities).2[i]? = some r1 →
        stripDescription r1 = stripDescription r0
        ∧ ∃ d, r1.description = some d := by
  induction cities generalizing st with
  | nil =>
    refine ⟨rfl, ?_⟩
    intro i r0 r1 h0 h1
    simp at h0
  | cons c rest ih =>
    obtain ⟨st', d, hone⟩ := enrichOne_shape corr wiki st c
    have hstep : enrichList corr wiki st (c :: rest)
        = ((enrichList corr wiki st' rest).1,
           { c with description := some d } :: (enrichList corr wiki st' rest).2) := by
      rw [enrichList, hone]
    rw [hstep]
    obtain ⟨ihlen, ihget⟩ := ih st'
    refine ⟨by simpa using ihlen, ?_⟩
    intro i r0 r1 h0 h1
    match i with
    | 0 =>
      simp only [List.getElem?_cons_zero, Option.some.injEq] at h0 h1
      rw [← h0, ← h1]
      exact ⟨by simp [stripDescription], d, rfl⟩
    | i + 1 =>
      simp only [List.getElem?_cons_succ] at h0 h1
      exact ihget i r0 r1 h0 h1

end Enrich

/-- C7: enrichment preserves the length and order of its input (record
`i` of the output is record `i` of the input with only `description`
set), every output record carries a description string, and a single
record's failed lookup (uncached, throwing) is absorbed as the fallback
string on that record with the cache untouched — by construction the
function returns a value, never an error. -/
theorem c7_enrichment_shape (corr : String → String)
    (wiki : String → Option String → Except Unit (Option String))
    (st : Enrich.DescCache) (cities : List Enrich.ECity) :
    (Enrich.enrichCitiesWithDescriptions corr wiki st cities).2.length
        = cities.length
    ∧ (∀ (i : Nat) r0 r1, cities[i]? = some r0 →
        (Enrich.enrichCitiesWithDescriptions corr wiki st cities).2[i]? = some r1 →
        Enrich.stripDescription r1 = Enrich.stripDescription r0
        ∧ ∃ d, r1.description = some d)
    ∧ (∀ (st0 : Enrich.DescCache) (c : Enrich.ECity),
        Enrich.cacheGetS st0 (Enrich.enrichCacheKey corr c) = none →
        wiki (corr (Enrich.rawCityNameOf c)) c.country = .error () →
        Enrich.enrichOne corr wiki st0 c
          = (st0, { c with description := some Enrich.fallbackDescription })) := by
  have hjoin : Enrich.enrichCitiesWithDescriptions corr wiki st cities
      = Enrich.enrichList corr wiki st cities := by
    rw [Enrich.enrichCitiesWithDescriptions, Enrich.enrichChunks_eq_flatten,
      Enrich.chunkArray_flatten cities Enrich.concurrencyLimit (by decide)]
  simp only [hjoin]
  obtain ⟨hlen, hget⟩ := Enrich.enrichList_spec corr wiki cities st
  refine ⟨hlen, hget, ?_⟩
  intro st0 c hc hw
  rw [Enrich.enrichOne, hc, Enrich.enrichFetch, hw]

/-- The record used to witness C7. -/
def sampleECity : Enrich.ECity :=
  { city := some "Warsaw", name := none, cityName := none,
    country := some "PL", countryCode := none, aqi := some 45,
    description := none }

/-- Witness for C7: the failing-lookup record receives the fallback. -/
theorem c7_enrichment_shape_witness :
    Enrich.enrichOne (fun s => s) (fun _ _ => .error ()) [] sampleECity
      = ([], { sampleECity with
               description := some Enrich.fallbackDescription }) :=
  (c7_enrichment_shape (fun s => s) (fun _ _ => .error ()) [] [sampleECity]).2.2
    [] sampleECity rfl rfl

/-! ## Cache Layer (`CacheManager`, `src/utils/cache.js`) and the
controller's `clearCache`

`CacheManager` wraps a node-cache instance and exposes exactly the
methods listed below; the controller's `clearCache` iterates a fixed key
list and calls `cache.clearPattern(key)` for every key containing `*`
and `cache.del(key)` for every other key.  Neither name is among the
manager's methods (its point-deletion method is called `delete`). -/

namespace CacheLayer

/-- The methods defined on `CacheManager` (the module's entire public
surface). -/
def cacheManagerMethods : List String :=
  ["get", "set", "setWikipedia", "delete", "flush", "getStats", "has",
   "mget", "mset"]

/-- `cacheKeysToClear` of the controller's `clearCache`. -/
def cacheKeysToClear : List String :=
  ["countries_list", "available_countries", "city_validation:*",
   "wikipedia_description:*", "db_cities:*", "country_name:*",
   "city_history:*"]

/-- The `forEach` of `clearCache` over the key list: a key containing `*`
is dispatched to `cache.clearPattern(key)`, any other key to
`cache.del(key)`; calling a method the cache object does not define
throws a `TypeError` that aborts the loop at that key (caught by the
surrounding handler as a failed request). -/
def clearCacheRun : Except String (List String) :=
  go cacheKeysToClear []
where
  go : List String → List String → Except String (List String)
  | [], cleared => .ok cleared.reverse
  | key :: rest, cleared =>
    if key.data.contains '*' then
      if cacheManagerMethods.contains "clearPattern" then go rest (key :: cleared)
      else .error "TypeError: cache.clearPattern is not a function"
    else
      if cacheManagerMethods.contains "del" then go rest (key :: cleared)
      else .error "TypeError: cache.del is not a function"

end CacheLayer

/-- C8: the cache layer defines no pattern-deletion operation at all —
neither `deletePattern` (the spec's name) nor `clearPattern` (the name the
controller actually calls) — and the controller's cache-clearing pass
never reaches a glob key: already its first key, `countries_list`, calls
`cache.del`, which the manager (whose method is `delete`) does not define
either, so the loop throws there and no key, pattern-matched or not, is
evicted. -/
theorem c8_deletePattern_missing :
    CacheLayer.cacheManagerMethods.contains "deletePattern" = false
    ∧ CacheLayer.cacheManagerMethods.contains "clearPattern" = false
    ∧ CacheLayer.cacheManagerMethods.contains "del" = false
    ∧ CacheLayer.clearCacheRun
        = .error "TypeError: cache.del is not a function" := by
  refine ⟨rfl, rfl, rfl, rfl⟩
